import Mathlib

/-!
Verification development for the Iridium toolchain: a shallow embedding of
the opcode catalog (`src/instruction.rs`), the virtual machine decode loop
(`src/vm.rs`), and the two-pass assembler driver (`src/assembler/mod.rs`,
`src/assembler/symbols.rs`, `src/assembler/instruction_parsers.rs`).

Machine integers are modelled as `Nat`/`Int`; program bytes are `Nat` values
that are `< 256` in any real image.  A Rust `panic!` (out-of-bounds index,
division by zero) is modelled by `Option`/`none`.
-/

deriving instance DecidableEq for Except

namespace Iridium

/-- Opcode: the closed variant set of `src/instruction.rs`.  Rust derives the
discriminants from declaration order, `HLT = 0` through `PRTS = 20`, `IGL = 21`. -/
inductive Opcode where
  | HLT | LOAD | ADD | SUB | MUL | DIV | JMP | JMPF | JMPB
  | EQ | NEQ | GT | LT | GTQ | LTQ | JEQ | JNEQ | ALOC | INC | DEC
  | PRTS | IGL
  deriving DecidableEq, Repr

/-- Embedding of `impl From<u8> for Opcode` (`src/instruction.rs` lines 30-57):
bytes 0..20 map to the catalog in order, every other byte maps to `IGL`. -/
def opcodeOfByte : Nat → Opcode
  | 0 => .HLT
  | 1 => .LOAD
  | 2 => .ADD
  | 3 => .SUB
  | 4 => .MUL
  | 5 => .DIV
  | 6 => .JMP
  | 7 => .JMPF
  | 8 => .JMPB
  | 9 => .EQ
  | 10 => .NEQ
  | 11 => .GT
  | 12 => .LT
  | 13 => .GTQ
  | 14 => .LTQ
  | 15 => .JEQ
  | 16 => .JNEQ
  | 17 => .ALOC
  | 18 => .INC
  | 19 => .DEC
  | 20 => .PRTS
  | _ => .IGL

/-- Embedding of the Rust enum discriminant (`code as u8` in
`AssemblerInstruction::to_bytes`): the position of the variant in the
declaration order of `src/instruction.rs`. -/
def byteOfOpcode : Opcode → Nat
  | .HLT => 0
  | .LOAD => 1
  | .ADD => 2
  | .SUB => 3
  | .MUL => 4
  | .DIV => 5
  | .JMP => 6
  | .JMPF => 7
  | .JMPB => 8
  | .EQ => 9
  | .NEQ => 10
  | .GT => 11
  | .LT => 12
  | .GTQ => 13
  | .LTQ => 14
  | .JEQ => 15
  | .JNEQ => 16
  | .ALOC => 17
  | .INC => 18
  | .DEC => 19
  | .PRTS => 20
  | .IGL => 21

/-- The lower-case mnemonic of each opcode, per the catalog listing of
`src/instruction.rs` (the spec's 21 mnemonics `HLT` .. `PRTS`; `IGL` is the
illegal sentinel and has no source mnemonic). -/
def mnemonic : Opcode → String
  | .HLT => "hlt"
  | .LOAD => "load"
  | .ADD => "add"
  | .SUB => "sub"
  | .MUL => "mul"
  | .DIV => "div"
  | .JMP => "jmp"
  | .JMPF => "jmpf"
  | .JMPB => "jmpb"
  | .EQ => "eq"
  | .NEQ => "neq"
  | .GT => "gt"
  | .LT => "lt"
  | .GTQ => "gtq"
  | .LTQ => "ltq"
  | .JEQ => "jeq"
  | .JNEQ => "jneq"
  | .ALOC => "aloc"
  | .INC => "inc"
  | .DEC => "dec"
  | .PRTS => "prts"
  | .IGL => "igl"

/-- Lower-casing a string character by character (Rust `to_lowercase`),
written over the character list so that it evaluates inside the kernel. -/
def toLowerStr (s : String) : String := ⟨s.data.map Char.toLower⟩

/-- Upper-casing a string character by character (the uppercase spelling of
a mnemonic), written over the character list so that it evaluates inside
the kernel. -/
def toUpperStr (s : String) : String := ⟨s.data.map Char.toUpper⟩

/-- Embedding of `impl From<CompleteStr> for Opcode` (`src/instruction.rs`
lines 59-84): the input is lower-cased and matched against the mnemonic
strings listed there.  Note the source match lists `hlt` .. `jneq` and
`prts` but has no arms for `aloc`, `inc` or `dec`. -/
def opcodeOfText (s : String) : Opcode :=
  match toLowerStr s with
  | "hlt" => .HLT
  | "load" => .LOAD
  | "add" => .ADD
  | "sub" => .SUB
  | "mul" => .MUL
  | "div" => .DIV
  | "jmp" => .JMP
  | "jmpf" => .JMPF
  | "jmpb" => .JMPB
  | "eq" => .EQ
  | "neq" => .NEQ
  | "gt" => .GT
  | "lt" => .LT
  | "gtq" => .GTQ
  | "ltq" => .LTQ
  | "jeq" => .JEQ
  | "jneq" => .JNEQ
  | "prts" => .PRTS
  | _ => .IGL

/-- Two's-complement wrap of an integer into the `i32` range, used to model
Rust's `as i32` casts and (release-mode) wrapping arithmetic.  The spec
(§9) leaves `i32` overflow undefined. -/
def wrap32 (x : Int) : Int := (x + 2 ^ 31) % 2 ^ 32 - 2 ^ 31

/-- Model of Rust's `as usize` cast from a signed value (sign-extend and
reinterpret: a negative `x` becomes `2^64 + x`). -/
def intToUsize (x : Int) : Nat := (x % 2 ^ 64).toNat

/-- Model of `Vec::resize(n, 0)`: truncate when shrinking, append zero fill
when growing. -/
def listResize (l : List Nat) (n : Nat) : List Nat :=
  if n ≤ l.length then l.take n else l ++ List.replicate (n - l.length) 0

/-- VM state (`src/vm.rs` lines 4-18): 32 `i32` registers, program counter,
program bytes, heap bytes, division remainder (`u32`) and the comparison
flag. -/
structure VM where
  registers : List Int
  pc : Nat
  program : List Nat
  heap : List Nat
  remainder : Nat
  equalFlag : Bool
  deriving DecidableEq, Repr

/-- Writing a register: `self.registers[i] = v` panics when `i` is out of
range, modelled by `none`. -/
def setReg (regs : List Int) (i : Nat) (v : Int) : Option (List Int) :=
  if i < regs.length then some (regs.set i v) else none

/-- Embedding of `VM::execute_instruction` (`src/vm.rs` lines 45-164)
together with its helpers `decode_opcode`, `next_8_bits` and
`next_16_bits`.  Returns `(state, is_done)`; `none` models a Rust panic
(an out-of-range program or register index, or division by zero).  The
leading `none` branch of the byte fetch is exactly the `pc >= program.len()`
early return.  Byte reads follow the source order; `p` is the counter after
`decode_opcode`.  `i32` overflow in ADD/SUB/MUL and the JMPF/JMPB counter
overflow are undefined per spec §9 and modelled as unbounded arithmetic;
the `as i32` / `as u32` / `as usize` casts are modelled by `wrap32` /
`% 2^32` / `intToUsize`.  The source match has no `PRTS` arm: byte 20 falls
through to the wildcard arm, which halts. -/
def executeInstruction (vm : VM) : Option (VM × Bool) :=
  match vm.program[vm.pc]? with
  | none => some (vm, true)
  | some b =>
    let p := vm.pc + 1
    match opcodeOfByte b with
    | .HLT => some ({ vm with pc := p }, true)
    | .LOAD => do
        let r ← vm.program[p]?
        let hi ← vm.program[p + 1]?
        let lo ← vm.program[p + 2]?
        let regs ← setReg vm.registers r (Int.ofNat (hi * 256 + lo))
        pure ({ vm with pc := p + 3, registers := regs }, false)
    | .ADD => do
        let a ← vm.program[p]?
        let v1 ← vm.registers[a]?
        let c ← vm.program[p + 1]?
        let v2 ← vm.registers[c]?
        let d ← vm.program[p + 2]?
        let regs ← setReg vm.registers d (v1 + v2)
        pure ({ vm with pc := p + 3, registers := regs }, false)
    | .SUB => do
        let a ← vm.program[p]?
        let v1 ← vm.registers[a]?
        let c ← vm.program[p + 1]?
        let v2 ← vm.registers[c]?
        let d ← vm.program[p + 2]?
        let regs ← setReg vm.registers d (v1 - v2)
        pure ({ vm with pc := p + 3, registers := regs }, false)
    | .MUL => do
        let a ← vm.program[p]?
        let v1 ← vm.registers[a]?
        let c ← vm.program[p + 1]?
        let v2 ← vm.registers[c]?
        let d ← vm.program[p + 2]?
        let regs ← setReg vm.registers d (v1 * v2)
        pure ({ vm with pc := p + 3, registers := regs }, false)
    | .DIV => do
        let a ← vm.program[p]?
        let v1 ← vm.registers[a]?
        let c ← vm.program[p + 1]?
        let v2 ← vm.registers[c]?
        let d ← vm.program[p + 2]?
        if v2 = 0 then none
        else do
          let regs ← setReg vm.registers d (Int.tdiv v1 v2)
          let rem := ((Int.tmod v1 v2) % 2 ^ 32).toNat
          pure ({ vm with pc := p + 3, registers := regs, remainder := rem }, false)
    | .JMP => do
        let r ← vm.program[p]?
        let v ← vm.registers[r]?
        pure ({ vm with pc := intToUsize v }, false)
    | .JMPF => do
        let r ← vm.program[p]?
        let v ← vm.registers[r]?
        pure ({ vm with pc := p + 1 + intToUsize v }, false)
    | .JMPB => do
        let r ← vm.program[p]?
        let v ← vm.registers[r]?
        pure ({ vm with pc := p + 1 - intToUsize v }, false)
    | .EQ => do
        let a ← vm.program[p]?
        let v1 ← vm.registers[a]?
        let c ← vm.program[p + 1]?
        let v2 ← vm.registers[c]?
        let _ ← vm.program[p + 2]?
        pure ({ vm with pc := p + 3, equalFlag := decide (v1 = v2) }, false)
    | .NEQ => do
        let a ← vm.program[p]?
        let v1 ← vm.registers[a]?
        let c ← vm.program[p + 1]?
        let v2 ← vm.registers[c]?
        let _ ← vm.program[p + 2]?
        pure ({ vm with pc := p + 3, equalFlag := decide (v1 ≠ v2) }, false)
    | .GT => do
        let a ← vm.program[p]?
        let v1 ← vm.registers[a]?
        let c ← vm.program[p + 1]?
        let v2 ← vm.registers[c]?
        let _ ← vm.program[p + 2]?
        pure ({ vm with pc := p + 3, equalFlag := decide (v1 > v2) }, false)
    | .LT => do
        let a ← vm.program[p]?
        let v1 ← vm.registers[a]?
        let c ← vm.program[p + 1]?
        let v2 ← vm.registers[c]?
        let _ ← vm.program[p + 2]?
        pure ({ vm with pc := p + 3, equalFlag := decide (v1 < v2) }, false)
    | .GTQ => do
        let a ← vm.program[p]?
        let v1 ← vm.registers[a]?
        let c ← vm.program[p + 1]?
        let v2 ← vm.registers[c]?
        let _ ← vm.program[p + 2]?
        pure ({ vm with pc := p + 3, equalFlag := decide (v1 ≥ v2) }, false)
    | .LTQ => do
        let a ← vm.program[p]?
        let v1 ← vm.registers[a]?
        let c ← vm.program[p + 1]?
        let v2 ← vm.registers[c]?
        let _ ← vm.program[p + 2]?
        pure ({ vm with pc := p + 3, equalFlag := decide (v1 ≤ v2) }, false)
    | .JEQ => do
        let r ← vm.program[p]?
        let v ← vm.registers[r]?
        if vm.equalFlag then pure ({ vm with pc := intToUsize v }, false)
        else pure ({ vm with pc := p + 1 }, false)
    | .JNEQ => do
        let r ← vm.program[p]?
        let v ← vm.registers[r]?
        if vm.equalFlag then pure ({ vm with pc := p + 1 }, false)
        else pure ({ vm with pc := intToUsize v }, false)
    | .ALOC => do
        let r ← vm.program[p]?
        let v ← vm.registers[r]?
        let newEnd := wrap32 (wrap32 (Int.ofNat vm.heap.length) + v)
        let heap2 := listResize vm.heap (intToUsize newEnd)
        pure ({ vm with pc := p + 1, heap := heap2 }, false)
    | .INC => do
        let r ← vm.program[p]?
        let v ← vm.registers[r]?
        let regs ← setReg vm.registers r (v + 1)
        pure ({ vm with pc := p + 1, registers := regs }, false)
    | .DEC => do
        let r ← vm.program[p]?
        let v ← vm.registers[r]?
        let regs ← setReg vm.registers r (v - 1)
        pure ({ vm with pc := p + 1, registers := regs }, false)
    | _ => some ({ vm with pc := p }, true)

/-- Iterated single-stepping, used to exhibit reachable states.  The done
flag is ignored; the traces below never step past a halting instruction. -/
def runSteps : Nat → VM → Option VM
  | 0, vm => some vm
  | n + 1, vm =>
    match executeInstruction vm with
    | some (vm2, _) => runSteps n vm2
    | none => none

/-- The state of `VM::new` (`src/vm.rs` lines 22-31) with a given program:
all registers zero, `pc = 65`, empty heap, zero remainder, false flag. -/
def freshVM (prog : List Nat) : VM :=
  { registers := List.replicate 32 0, pc := 65, program := prog,
    heap := [], remainder := 0, equalFlag := false }

/-- Token (`src/assembler/mod.rs` lines 19-28): tagged parser products. -/
inductive Token where
  | op (code : Opcode)
  | register (regNum : Nat)
  | integerOperand (value : Int)
  | labelDeclaration (name : String)
  | labelUsage (name : String)
  | directive (name : String)
  | irString (name : String)
  deriving DecidableEq, Repr

/-- The `AssemblerInstruction` record as defined in
`src/assembler/instruction_parsers.rs` lines 9-15: an opcode token and up
to three positional operand tokens. -/
structure AssemblerInstruction where
  opcode : Token
  operand1 : Option Token
  operand2 : Option Token
  operand3 : Option Token
  deriving DecidableEq, Repr

/-- Embedding of `AssemblerInstruction::extract_operand`
(`src/assembler/instruction_parsers.rs` lines 41-59).  A register operand
is one byte; an integer operand is two bytes, high then low, of the low
16 bits of the `i32` value (`*value as u16`).  Any other token makes the
process exit, modelled by `none`. -/
def extractOperand (t : Token) : Option (List Nat) :=
  match t with
  | .register r => some [r]
  | .integerOperand v =>
      let converted := (v % 2 ^ 16).toNat
      some [converted / 256, converted % 256]
  | _ => none

/-- Bytes contributed by one optional operand slot in `to_bytes`: an absent
operand contributes nothing. -/
def operandBytes : Option Token → Option (List Nat)
  | none => some []
  | some t => extractOperand t

/-- Embedding of `AssemblerInstruction::to_bytes`
(`src/assembler/instruction_parsers.rs` lines 19-39): push the opcode byte,
then the encoded bytes of each present operand in order.  The source
contains no zero-padding step.  A non-op token in the opcode field exits
the process, modelled by `none`. -/
def AssemblerInstruction.toBytes (i : AssemblerInstruction) : Option (List Nat) :=
  match i.opcode with
  | .op code => do
      let b1 ← operandBytes i.operand1
      let b2 ← operandBytes i.operand2
      let b3 ← operandBytes i.operand3
      pure (byteOfOpcode code :: (b1 ++ b2 ++ b3))
  | _ => none

/-- Symbol kinds (`src/assembler/symbols.rs` lines 32-39). -/
inductive SymbolType where
  | label | integer | irStringConstant
  deriving DecidableEq, Repr

/-- Symbol (`src/assembler/symbols.rs` lines 1-9): a name, an optional byte
offset (`u32`) and a kind. -/
structure Symbol where
  name : String
  offset : Option Nat
  symbolType : SymbolType
  deriving DecidableEq, Repr

/-- `Symbol::new` (`src/assembler/symbols.rs` lines 13-19): the offset
starts out unset. -/
def Symbol.new (name : String) (t : SymbolType) : Symbol :=
  { name := name, offset := none, symbolType := t }

/-- `Symbol::new_with_offset` (`src/assembler/symbols.rs` lines 22-28). -/
def Symbol.newWithOffset (name : String) (t : SymbolType) (offset : Nat) : Symbol :=
  { name := name, offset := some offset, symbolType := t }

/-- `SymbolTable` (`src/assembler/symbols.rs` lines 44-47): an insertion
ordered list of symbols with linear lookup. -/
structure SymbolTable where
  symbols : List Symbol
  deriving DecidableEq, Repr

/-- `SymbolTable::add_symbol`: append. -/
def SymbolTable.addSymbol (st : SymbolTable) (s : Symbol) : SymbolTable :=
  { symbols := st.symbols ++ [s] }

/-- `SymbolTable::symbol_value`: the offset of the first symbol with the
given name, `none` if there is no such symbol or its offset is unset. -/
def SymbolTable.symbolValue (st : SymbolTable) (s : String) : Option Nat :=
  match st.symbols.find? (fun sym => decide (sym.name = s)) with
  | some sym => sym.offset
  | none => none

/-- `SymbolTable::has_symbol`. -/
def SymbolTable.hasSymbol (st : SymbolTable) (s : String) : Bool :=
  st.symbols.any (fun sym => decide (sym.name = s))

/-- Recursion for `SymbolTable::set_symbol_offset`: update the first symbol
with the given name and report whether one was found. -/
def setOffsetList : List Symbol → String → Nat → List Symbol × Bool
  | [], _, _ => ([], false)
  | sym :: rest, s, v =>
    if sym.name = s then ({ sym with offset := some v } :: rest, true)
    else
      let r := setOffsetList rest s v
      (sym :: r.1, r.2)

/-- `SymbolTable::set_symbol_offset` (`src/assembler/symbols.rs` lines 79-87). -/
def SymbolTable.setSymbolOffset (st : SymbolTable) (s : String) (v : Nat) :
    SymbolTable × Bool :=
  let r := setOffsetList st.symbols s v
  (⟨r.1⟩, r.2)

/-- Modelled from the spec: the full assembler row record consumed by
`Assembler::assemble`.  Its defining file is not under `src/` (the
`instruction_parsers.rs` present there is an older revision without the
`label`/`directive` fields), but its shape is pinned by spec §3
(AssemblerInstruction) and by the construction site in
`src/assembler/directive_parsers.rs` lines 28-35: an optional opcode token,
optional label-declaration token, optional directive token and up to three
positional operand tokens. -/
structure AsmRow where
  opcode : Option Token
  label : Option Token
  directive : Option Token
  operand1 : Option Token
  operand2 : Option Token
  operand3 : Option Token
  deriving DecidableEq, Repr

/-- Modelled from the spec: `AssemblerInstruction::is_label`, used by
`Assembler::process_first_phase` — the row carries a label declaration. -/
def AsmRow.isLabel (i : AsmRow) : Bool := i.label.isSome

/-- Modelled from the spec: `AssemblerInstruction::is_opcode`, used by
`Assembler::process_second_phase` — the row carries an opcode. -/
def AsmRow.isOpcode (i : AsmRow) : Bool := i.opcode.isSome

/-- Modelled from the spec: `AssemblerInstruction::is_directive`. -/
def AsmRow.isDirective (i : AsmRow) : Bool := i.directive.isSome

/-- Modelled from the spec: `AssemblerInstruction::get_label_name` — the
name inside the row's label-declaration token, if any. -/
def AsmRow.getLabelName (i : AsmRow) : Option String :=
  match i.label with
  | some (.labelDeclaration name) => some name
  | _ => none

/-- Modelled from the spec: `AssemblerInstruction::get_directive_name`. -/
def AsmRow.getDirectiveName (i : AsmRow) : Option String :=
  match i.directive with
  | some (.directive name) => some name
  | _ => none

/-- Modelled from the spec: `AssemblerInstruction::get_string_constant` —
the string of an `IrString` first operand (`.asciiz 'text'`). -/
def AsmRow.getStringConstant (i : AsmRow) : Option String :=
  match i.operand1 with
  | some (.irString name) => some name
  | _ => none

/-- Modelled from the spec: `AssemblerInstruction::has_operands` — at least
one operand slot is filled. -/
def AsmRow.hasOperands (i : AsmRow) : Bool :=
  i.operand1.isSome || i.operand2.isSome || i.operand3.isSome

/-- Modelled from the spec (§4.7): operand encoding of the emitter variant
that consults the symbol table (`to_bytes(&self.symbols)` as called in
`Assembler::process_second_phase`; not under `src/`): a register is one
byte, an integer is two big-endian bytes of its low 16 bits, a label usage
is one byte holding the resolved offset (zero when unresolved). -/
def encodeOperand (symbols : SymbolTable) (t : Token) : List Nat :=
  match t with
  | .register r => [r]
  | .integerOperand v =>
      let converted := (v % 2 ^ 16).toNat
      [converted / 256, converted % 256]
  | .labelUsage name =>
      match symbols.symbolValue name with
      | some off => [off % 256]
      | none => [0]
  | _ => []

/-- Modelled from the spec (§4.7): the fixed-width emitter used in pass 2
for an opcode row — the opcode byte, then the encoded operands, zero-padded
to exactly 4 bytes. -/
def AsmRow.toBytesFull (i : AsmRow) (symbols : SymbolTable) : List Nat :=
  match i.opcode with
  | some (.op code) =>
      let ops :=
        [i.operand1, i.operand2, i.operand3].foldl
          (fun acc o =>
            match o with
            | some t => acc ++ encodeOperand symbols t
            | none => acc) []
      let raw := byteOfOpcode code :: ops
      raw ++ List.replicate (4 - raw.length) 0
  | _ => []

/-- Modelled from the spec (§7): the assembler error taxonomy of
`src/assembler/assembler_errors.rs` (not under `src/`); the variants and
payloads are pinned by their construction sites in `src/assembler/mod.rs`. -/
inductive AsmError where
  | parseError (error : String)
  | noSegmentDeclarationFound (instruction : Nat)
  | stringConstantDeclaredWithoutLabel (instruction : Nat)
  | symbolAlreadyDeclared
  | unknownDirectiveFound (directive : String)
  | insufficientSections
  deriving DecidableEq, Repr

/-- `AssemblerSection` (`src/assembler/mod.rs` lines 47-52). -/
inductive AssemblerSection where
  | data (startingInstruction : Option Nat)
  | code (startingInstruction : Option Nat)
  | unknown
  deriving DecidableEq, Repr

/-- `impl From<&str> for AssemblerSection` (`src/assembler/mod.rs`
lines 54-66). -/
def sectionFromName (name : String) : AssemblerSection :=
  if name = "data" then .data none
  else if name = "code" then .code none
  else .unknown

/-- `AssemblerPhase` (`src/assembler/mod.rs` lines 35-39). -/
inductive AssemblerPhase where
  | first | second
  deriving DecidableEq, Repr

/-- The assembler state (`src/assembler/mod.rs` lines 72-93). -/
structure Assembler where
  phase : AssemblerPhase
  symbols : SymbolTable
  ro : List Nat
  roOffset : Nat
  sections : List AssemblerSection
  currentSection : Option AssemblerSection
  currentInstruction : Nat
  errors : List AsmError
  deriving DecidableEq, Repr

/-- `Assembler::new` (`src/assembler/mod.rs` lines 97-109). -/
def Assembler.new : Assembler :=
  { phase := .first, symbols := ⟨[]⟩, ro := [], roOffset := 0, sections := [],
    currentSection := none, currentInstruction := 0, errors := [] }

/-- The UTF-8 bytes of a string constant (`s.as_bytes()` in
`Assembler::handle_asciiz`); for the ASCII constants of this grammar these
are the character codes. -/
def stringBytes (s : String) : List Nat := s.toList.map Char.toNat

/-- Embedding of `Assembler::process_label_declaration`
(`src/assembler/mod.rs` lines 201-222): a row without a label name records
`StringConstantDeclaredWithoutLabel`; a duplicate name records
`SymbolAlreadyDeclared`; otherwise a `Symbol::new` (offset unset) is added. -/
def processLabelDeclaration (st : Assembler) (i : AsmRow) : Assembler :=
  match i.getLabelName with
  | none =>
      { st with errors := st.errors ++
          [.stringConstantDeclaredWithoutLabel st.currentInstruction] }
  | some name =>
      if st.symbols.hasSymbol name then
        { st with errors := st.errors ++ [.symbolAlreadyDeclared] }
      else
        { st with symbols := st.symbols.addSymbol (Symbol.new name .label) }

/-- Embedding of `Assembler::handle_asciiz` (`src/assembler/mod.rs` lines
266-299): first-phase only; sets the label's symbol offset to the current
read-only offset, then appends the string bytes plus a terminating zero to
the read-only buffer.  The no-string and no-label arms only print. -/
def handleAsciiz (st : Assembler) (i : AsmRow) : Assembler :=
  if st.phase ≠ .first then st
  else
    match i.getStringConstant with
    | some s =>
        match i.getLabelName with
        | some name =>
            let r := st.symbols.setSymbolOffset name st.roOffset
            let bytes := stringBytes s
            let ro2 := st.ro ++ bytes ++ [0]
            let off2 := st.roOffset + bytes.length + 1
            { st with symbols := r.1, ro := ro2, roOffset := off2 }
        | none => st
    | none => st

/-- Embedding of `Assembler::process_section_header`
(`src/assembler/mod.rs` lines 254-263): unknown names are skipped with a
diagnostic print; known ones are pushed and made current. -/
def processSectionHeader (st : Assembler) (headerName : String) : Assembler :=
  let newSection := sectionFromName headerName
  if newSection = .unknown then st
  else
    let secs := st.sections ++ [newSection]
    { st with sections := secs, currentSection := some newSection }

/-- Embedding of `Assembler::process_directive` (`src/assembler/mod.rs`
lines 225-251): with operands, `asciiz` is handled and anything else
records `UnknownDirectiveFound`; without operands it is a section header. -/
def processDirective (st : Assembler) (i : AsmRow) : Assembler :=
  match i.getDirectiveName with
  | none => st
  | some name =>
      if i.hasOperands then
        if name = "asciiz" then handleAsciiz st i
        else { st with errors := st.errors ++ [.unknownDirectiveFound name] }
      else processSectionHeader st name

/-- One row of `Assembler::process_first_phase` (`src/assembler/mod.rs`
lines 150-173): labels require a current section, directives are
dispatched, and the instruction counter advances. -/
def processRowFirst (st : Assembler) (i : AsmRow) : Assembler :=
  let st1 :=
    if i.isLabel then
      if st.currentSection.isSome then processLabelDeclaration st i
      else
        { st with errors := st.errors ++
            [.noSegmentDeclarationFound st.currentInstruction] }
    else st
  let st2 := if i.isDirective then processDirective st1 i else st1
  { st2 with currentInstruction := st2.currentInstruction + 1 }

/-- The whole first pass from a fresh assembler, ending with the phase set
to `Second` (`src/assembler/mod.rs` lines 150-173). -/
def processFirstPhase (p : List AsmRow) : Assembler :=
  let st := p.foldl processRowFirst Assembler.new
  { st with phase := .second }

/-- Embedding of the bytes produced by `Assembler::process_second_phase`
(`src/assembler/mod.rs` lines 176-198): the concatenated `to_bytes` of the
opcode rows, in order.  The source also re-dispatches directives here, but
in phase `Second` they only mutate bookkeeping fields (`handle_asciiz` is
gated on phase `First`, section headers only push onto `sections` after
the section count was already checked), so they do not affect the emitted
bytes. -/
def processSecondPhase (symbols : SymbolTable) (p : List AsmRow) : List Nat :=
  p.foldl (fun acc i => if i.isOpcode then acc ++ i.toBytesFull symbols else acc) []

/-- The PIE header prefix (`src/assembler/mod.rs` line 30). -/
def pieHeaderPrefix : List Nat := [45, 50, 49, 45]

/-- Embedding of `Assembler::write_pie_header` (`src/assembler/mod.rs`
lines 320-329): the 4 magic bytes padded with zeros to
`PIE_HEADER_LENGTH = 64`. -/
def writePieHeader : List Nat := pieHeaderPrefix ++ List.replicate 60 0

/-- Embedding of `Assembler::assemble` (`src/assembler/mod.rs` lines
112-146) from the parsed program on: first pass; abort with the collected
errors when any exist; abort with `InsufficientSections` appended when the
section count differs from 2; otherwise the header followed by the
second-pass body.  The text→rows parse stage (`program_parsers.rs`, not
under `src/`) is abstracted away: the function takes the parsed row list.
Note that the read-only buffer `ro` built in pass 1 is never merged into
the returned image. -/
def assembleProgram (p : List AsmRow) : Except (List AsmError) (List Nat) :=
  let st := processFirstPhase p
  if st.errors ≠ [] then .error st.errors
  else if st.sections.length ≠ 2 then .error (st.errors ++ [.insufficientSections])
  else .ok (writePieHeader ++ processSecondPhase st.symbols p)

/-- C3 counterexample: at the concrete opcode `ALOC` (likewise `INC` and
`DEC`) the text round trip fails — `impl From<CompleteStr> for Opcode` has
no arm for `aloc`, so the mnemonic maps to `IGL`, not back to `ALOC`. -/
theorem C3_text_round_trip_fails_for_aloc :
    opcodeOfText (mnemonic Opcode.ALOC) = Opcode.IGL ∧
    opcodeOfText (mnemonic Opcode.INC) = Opcode.IGL ∧
    opcodeOfText (mnemonic Opcode.DEC) = Opcode.IGL ∧
    Opcode.IGL ≠ Opcode.ALOC := by
  decide

/-- C3 (amended): for every opcode `x ≠ IGL` the byte round trip
`opcodeOfByte (byteOfOpcode x) = x` holds; the text round trip for both the
lowercase and uppercase mnemonic holds for every such opcode except
`ALOC`, `INC` and `DEC`, whose mnemonics are missing from the text map and
fall to `IGL`. -/
theorem C3_round_trips :
    (∀ x : Opcode, x ≠ Opcode.IGL → opcodeOfByte (byteOfOpcode x) = x) ∧
    (∀ x : Opcode, x ≠ Opcode.IGL → x ≠ Opcode.ALOC → x ≠ Opcode.INC →
      x ≠ Opcode.DEC →
      opcodeOfText (mnemonic x) = x ∧ opcodeOfText (toUpperStr (mnemonic x)) = x) := by
  constructor
  · intro x hx
    cases x <;> rfl
  · intro x hx ha hi hd
    cases x <;>
      first
        | exact absurd rfl hx
        | exact absurd rfl ha
        | exact absurd rfl hi
        | exact absurd rfl hd
        | exact ⟨by decide, by decide⟩

/-- C3 witness: the round trips of `C3_round_trips` instantiated at the
concrete opcodes `PRTS` and `LOAD`. -/
theorem C3_round_trips_witness :
    opcodeOfByte (byteOfOpcode Opcode.PRTS) = Opcode.PRTS ∧
    opcodeOfText (mnemonic Opcode.LOAD) = Opcode.LOAD ∧
    opcodeOfText (toUpperStr (mnemonic Opcode.LOAD)) = Opcode.LOAD :=
  ⟨C3_round_trips.1 Opcode.PRTS (by decide),
   (C3_round_trips.2 Opcode.LOAD (by decide) (by decide) (by decide) (by decide)).1,
   (C3_round_trips.2 Opcode.LOAD (by decide) (by decide) (by decide) (by decide)).2⟩

/-- A zero-operand instruction row (`HLT`), the failing input for the
fixed-width emit claim. -/
def hltRowSrc : AssemblerInstruction :=
  { opcode := .op .HLT, operand1 := none, operand2 := none, operand3 := none }

/-- A one-register, one-integer row (`LOAD $0 #500`), a second probe of the
emitter's width. -/
def loadRowSrc : AssemblerInstruction :=
  { opcode := .op .LOAD, operand1 := some (.register 0),
    operand2 := some (.integerOperand 500), operand3 := none }

/-- C1: evaluating `AssemblerInstruction::to_bytes` at the failing input.
The source (`src/assembler/instruction_parsers.rs` lines 19-39) contains no
zero-padding step, so the zero-operand row `HLT` emits the single byte
`[0]`, not the four bytes `[0, 0, 0, 0]` the claim states; only rows whose
operands happen to fill all three slots (such as `LOAD $0 #500`) reach
4 bytes.  The repository's own `test_assemble_program`
(`src/assembler/mod.rs`) asserts a 92-byte image (64-byte header plus seven
4-byte slots), which requires the padding. -/
theorem C1_to_bytes_emits_unpadded :
    hltRowSrc.toBytes = some [0] ∧ some [0] ≠ some [0, 0, 0, 0] ∧
    loadRowSrc.toBytes = some [1, 0, 1, 244] := by
  decide

/-- A fresh VM whose program is a 65-byte prefix followed by the single
byte 20 (`PRTS`), so that the first decoded opcode byte is `PRTS`. -/
def c5vm : VM := freshVM (List.replicate 65 0 ++ [20, 0, 0, 0])

/-- C5 counterexample: at this concrete state the step on opcode byte 20
returns `is_done = true` — the `VM::execute_instruction` match has no
`PRTS` arm, so byte 20 falls into the wildcard arm and halts the run,
contradicting the claim that execution continues after `PRTS`. -/
theorem C5_prts_step_halts_concretely :
    executeInstruction c5vm = some ({ c5vm with pc := 66 }, true) := by
  decide

/-- C5 (amended): when the VM decodes byte 20 (`PRTS`), no dedicated arm
exists; the step takes the unrecognized-opcode arm, consumes only the
opcode byte, and halts the run (no register read, no output). -/
theorem C5_prts_halts (vm : VM) (h : vm.program[vm.pc]? = some 20) :
    executeInstruction vm = some ({ vm with pc := vm.pc + 1 }, true) := by
  simp [executeInstruction, h, opcodeOfByte]

/-- A one-byte program whose only byte is `PRTS`, decoded at `pc = 0`. -/
def c5vmW : VM :=
  { registers := [], pc := 0, program := [20], heap := [], remainder := 0,
    equalFlag := false }

/-- C5 witness: `C5_prts_halts` instantiated at the concrete one-byte
program. -/
theorem C5_prts_halts_witness :
    executeInstruction c5vmW = some ({ c5vmW with pc := 1 }, true) :=
  C5_prts_halts c5vmW rfl

/-- A fresh VM about to execute `JEQ $0` with the equal flag false. -/
def c7vm : VM := freshVM (List.replicate 65 0 ++ [15, 0])

/-- C7 counterexample: at this concrete state (opcode byte 15 = `JEQ`,
flag false) the untaken branch advances the counter from 65 to 67, not to
65 + 4 = 69 — `JEQ` reads only the register byte and never consumes the
two pad bytes of its 4-byte slot. -/
theorem C7_jeq_advances_by_two :
    executeInstruction c7vm = some ({ c7vm with pc := 67 }, false) ∧
    (67 : Nat) ≠ 65 + 4 := by
  decide

/-- C7 (amended): `JEQ` (opcode 15) and `JNEQ` (opcode 16) read only the
register byte of their slot; when the jump is not taken the counter
advances by exactly 2 from the opcode byte, and when taken it is set to
`reg[r]` converted to `usize`. -/
theorem C7_jeq_jneq_step (vm : VM) (r : Nat) (v : Int)
    (h1 : vm.program[vm.pc + 1]? = some r)
    (h2 : vm.registers[r]? = some v) :
    (vm.program[vm.pc]? = some 15 →
      executeInstruction vm =
        some ({ vm with pc := if vm.equalFlag then intToUsize v else vm.pc + 2 }, false)) ∧
    (vm.program[vm.pc]? = some 16 →
      executeInstruction vm =
        some ({ vm with pc := if vm.equalFlag then vm.pc + 2 else intToUsize v }, false)) := by
  constructor <;> intro h0 <;> cases hf : vm.equalFlag <;>
    simp [executeInstruction, h0, h1, h2, hf, opcodeOfByte]

/-- A VM with `reg[0] = 7` about to execute `JEQ $0` with the flag set. -/
def c7vmW : VM :=
  { registers := [7], pc := 0, program := [15, 0], heap := [], remainder := 0,
    equalFlag := true }

/-- C7 witness: the taken `JEQ` branch of `C7_jeq_jneq_step` at a concrete
state jumps to `reg[0] = 7`. -/
theorem C7_jeq_jneq_step_witness :
    executeInstruction c7vmW = some ({ c7vmW with pc := 7 }, false) := by
  have h := (C7_jeq_jneq_step c7vmW 0 7 rfl rfl).1 rfl
  simpa [c7vmW, intToUsize] using h

/-- The comparison result each of the opcode bytes 9..14 writes into the
equal flag (`src/vm.rs` lines 96-131): signed comparison of the two
register values. -/
def compareFlag (b : Nat) (v1 v2 : Int) : Bool :=
  match opcodeOfByte b with
  | .EQ => decide (v1 = v2)
  | .NEQ => decide (v1 ≠ v2)
  | .GT => decide (v1 > v2)
  | .LT => decide (v1 < v2)
  | .GTQ => decide (v1 ≥ v2)
  | .LTQ => decide (v1 ≤ v2)
  | _ => false

/-- C9: executing any comparison opcode (bytes 9..14, `EQ` through `LTQ`)
reads two register bytes and one pad byte, advances the counter by exactly
4, and changes nothing but the equal flag: the result state is the input
state with only `pc` and `equalFlag` updated, so registers, heap,
remainder and program are untouched, and the step does not halt. -/
theorem C9_compare_frame (vm : VM) (b a c pad : Nat) (v1 v2 : Int)
    (hb : vm.program[vm.pc]? = some b)
    (hlo : 9 ≤ b) (hhi : b ≤ 14)
    (h1 : vm.program[vm.pc + 1]? = some a)
    (h2 : vm.registers[a]? = some v1)
    (h3 : vm.program[vm.pc + 2]? = some c)
    (h4 : vm.registers[c]? = some v2)
    (h5 : vm.program[vm.pc + 3]? = some pad) :
    executeInstruction vm =
      some ({ vm with pc := vm.pc + 4, equalFlag := compareFlag b v1 v2 }, false) := by
  interval_cases b <;>
    simp [executeInstruction, compareFlag, hb, h1, h2, h3, h4, h5, opcodeOfByte]

/-- A VM with `reg[0] = reg[1] = 5` about to execute `EQ $0 $1`. -/
def c9vm : VM :=
  { registers := [5, 5], pc := 0, program := [9, 0, 1, 0], heap := [],
    remainder := 0, equalFlag := false }

/-- C9 witness: `C9_compare_frame` instantiated at a concrete `EQ` step. -/
theorem C9_compare_frame_witness :
    executeInstruction c9vm =
      some ({ c9vm with pc := c9vm.pc + 4, equalFlag := compareFlag 9 5 5 }, false) :=
  C9_compare_frame c9vm 9 0 1 0 5 5 rfl (by decide) (by decide) rfl rfl rfl rfl rfl

/-- C10: a `LOAD` step (opcode byte 1) assembles its 16-bit immediate from
two program bytes big-endian, zero-extends it into the `i32` register, and
therefore always stores a value in `0..65535`: the target register can
never become negative through `LOAD`. -/
theorem C10_load_range (vm : VM) (r hi lo : Nat)
    (h0 : vm.program[vm.pc]? = some 1)
    (h1 : vm.program[vm.pc + 1]? = some r)
    (h2 : vm.program[vm.pc + 2]? = some hi)
    (h3 : vm.program[vm.pc + 3]? = some lo)
    (hhi : hi < 256) (hlo : lo < 256)
    (hr : r < vm.registers.length) :
    (executeInstruction vm =
      some ({ vm with pc := vm.pc + 4, registers := vm.registers.set r (Int.ofNat (hi * 256 + lo)) }, false)) ∧
    0 ≤ Int.ofNat (hi * 256 + lo) ∧ Int.ofNat (hi * 256 + lo) < 65536 := by
  refine ⟨?_, ?_, ?_⟩
  · simp [executeInstruction, h0, h1, h2, h3, setReg, hr, opcodeOfByte]
  · exact Int.ofNat_nonneg _
  · simp only [Int.ofNat_eq_natCast]
    omega

/-- A fresh VM about to execute `LOAD $0 #500` (bytes `[1, 0, 1, 244]`). -/
def c10vm : VM := freshVM (List.replicate 65 0 ++ [1, 0, 1, 244])

/-- C10 witness: `C10_load_range` instantiated at the concrete
`LOAD $0 #500` step. -/
theorem C10_load_range_witness :
    (executeInstruction c10vm =
      some ({ c10vm with pc := c10vm.pc + 4, registers := c10vm.registers.set 0 (Int.ofNat (1 * 256 + 244)) }, false)) ∧
    0 ≤ Int.ofNat (1 * 256 + 244) ∧ Int.ofNat (1 * 256 + 244) < 65536 :=
  C10_load_range c10vm 0 1 244 (by decide) (by decide) (by decide) (by decide)
    (by decide) (by decide) (by decide)

/-- Resizing a list to its length plus `k` appends exactly `k` zero bytes. -/
theorem listResize_add (l : List Nat) (k : Nat) :
    listResize l (l.length + k) = l ++ List.replicate k 0 := by
  unfold listResize
  rcases Nat.eq_zero_or_pos k with rfl | hk
  · simp
  · rw [if_neg (by omega)]
    simp

/-- A fresh VM whose program (after the 65-byte prefix) is, in the exact
slot widths the decode loop consumes: `LOAD $0 #10` (4 bytes), `ALOC $0`
(2 bytes), five times `DEC $1` (2 bytes each), then `ALOC $1` (2 bytes).
After seven steps `reg[1] = -5` and the heap holds 10 bytes; the eighth
step executes `ALOC $1`. -/
def c6vm : VM :=
  freshVM (List.replicate 65 0 ++
    [1, 0, 0, 10, 17, 0, 19, 1, 19, 1, 19, 1, 19, 1, 19, 1, 17, 1])

/-- The heap length after `n` steps of the `c6vm` trace. -/
def c6heapLen (n : Nat) : Option Nat :=
  (runSteps n c6vm).map (fun v => v.heap.length)

/-- C6 counterexample: in a state reached from a fresh VM by eight ordinary
steps, `ALOC` with `reg[1] = -5` resizes the heap from 10 bytes down to 5 —
a single instruction does decrease the heap length, because the ALOC arm
computes `heap.len() as i32 + reg[r]` and `Vec::resize` truncates when the
new length is smaller. -/
theorem C6_aloc_shrinks_heap :
    c6heapLen 7 = some 10 ∧ c6heapLen 8 = some 5 ∧ (5 : Nat) < 10 := by
  decide

/-- C6 (amended): an executed instruction whose opcode is not `ALOC` leaves
the heap exactly unchanged, and `ALOC` with a nonnegative register value
`v` (and no `i32`/`usize` overflow, guaranteed here by
`heap.len + v < 2^31`) extends the heap by exactly `v` zero-filled bytes.
When the register value is negative the heap can shrink, as
the eight-step trace above shows. -/
theorem C6_heap_effects :
    (∀ vm vm2 d b, vm.program[vm.pc]? = some b →
      opcodeOfByte b ≠ Opcode.ALOC →
      executeInstruction vm = some (vm2, d) → vm2.heap = vm.heap) ∧
    (∀ vm r v, vm.program[vm.pc]? = some 17 →
      vm.program[vm.pc + 1]? = some r → vm.registers[r]? = some v →
      0 ≤ v → vm.heap.length + v.toNat < 2 ^ 31 →
      executeInstruction vm =
        some ({ vm with pc := vm.pc + 2, heap := vm.heap ++ List.replicate v.toNat 0 }, false)) := by
  constructor
  · intro vm vm2 d b hb hno hstep
    simp only [executeInstruction, hb] at hstep
    cases ho : opcodeOfByte b
    case ALOC => exact absurd ho hno
    all_goals
      simp only [ho, Option.pure_def, Option.bind_eq_bind, Option.bind_eq_some] at hstep
    all_goals
      first
        | (cases hstep; rfl)
        | (obtain ⟨r1, e1, r2, e2, hstep⟩ := hstep
           first
             | (cases hstep; rfl)
             | (split at hstep <;> (cases hstep; rfl))
             | (obtain ⟨r3, e3, hstep⟩ := hstep; cases hstep; rfl))
        | (obtain ⟨r1, e1, r2, e2, r3, e3, r4, e4, hstep⟩ := hstep
           cases hstep; rfl)
        | (obtain ⟨r1, e1, r2, e2, r3, e3, r4, e4, r5, e5, hstep⟩ := hstep
           cases hstep; rfl)
        | (obtain ⟨r1, e1, r2, e2, r3, e3, r4, e4, r5, e5, r6, e6, hstep⟩ := hstep
           cases hstep; rfl)
        | (obtain ⟨r1, e1, r2, e2, r3, e3, r4, e4, r5, e5, hstep⟩ := hstep
           split at hstep
           · cases hstep
           · simp only [Option.pure_def, Option.bind_eq_bind,
               Option.bind_eq_some] at hstep
             obtain ⟨r6, e6, hstep⟩ := hstep
             cases hstep; rfl)
  · intro vm r v h0 h1 h2 hv hbound
    have e1 : wrap32 ((vm.heap.length : Int)) = (vm.heap.length : Int) := by
      unfold wrap32
      omega
    have e2 : wrap32 ((vm.heap.length : Int) + v) = (vm.heap.length : Int) + v := by
      unfold wrap32
      omega
    have e3 : intToUsize ((vm.heap.length : Int) + v) = vm.heap.length + v.toNat := by
      unfold intToUsize
      omega
    simp [executeInstruction, h0, h1, h2, opcodeOfByte, e1, e2, e3, listResize_add]

/-- A VM with `reg[0] = 3` and a two-byte heap, about to execute `ALOC $0`. -/
def c6vmW : VM :=
  { registers := [3], pc := 0, program := [17, 0], heap := [7, 7],
    remainder := 0, equalFlag := false }

/-- A VM with a two-byte heap about to execute `HLT`. -/
def c6vmW2 : VM :=
  { registers := [3], pc := 0, program := [0], heap := [7, 7],
    remainder := 0, equalFlag := false }

/-- C6 witness: both halves of `C6_heap_effects` at concrete states — an
`HLT` step preserves the two-byte heap of `c6vmW2`, and `ALOC $0` with
`reg[0] = 3` appends three zero bytes to the heap of `c6vmW`. -/
theorem C6_heap_effects_witness :
    executeInstruction c6vmW =
      some ({ c6vmW with pc := c6vmW.pc + 2, heap := c6vmW.heap ++ List.replicate (Int.toNat 3) 0 }, false) ∧
    ({ c6vmW2 with pc := 1 } : VM).heap = c6vmW2.heap :=
  ⟨C6_heap_effects.2 c6vmW 0 3 rfl rfl rfl (by decide) (by decide),
   C6_heap_effects.1 c6vmW2 { c6vmW2 with pc := 1 } true 0 rfl
     (by decide) (by decide)⟩

/-- A `.data` section-header row. -/
def dataRow : AsmRow :=
  { opcode := none, label := none, directive := some (.directive "data"),
    operand1 := none, operand2 := none, operand3 := none }

/-- A `.code` section-header row. -/
def codeRow : AsmRow :=
  { opcode := none, label := none, directive := some (.directive "code"),
    operand1 := none, operand2 := none, operand3 := none }

/-- A labelled string-constant row `nm: .asciiz 'str'`. -/
def asciizRow (nm str : String) : AsmRow :=
  { opcode := none, label := some (.labelDeclaration nm),
    directive := some (.directive "asciiz"),
    operand1 := some (.irString str), operand2 := none, operand3 := none }

/-- A bare `hlt` instruction row. -/
def hltRowFull : AsmRow :=
  { opcode := some (.op .HLT), label := none, directive := none,
    operand1 := none, operand2 := none, operand3 := none }

/-- C8: whenever the first pass has accumulated any errors, `assemble`
returns exactly that error list (in encounter order, since each error is
appended at its point of discovery) and the second pass is never consulted:
the result carries no bytecode body. -/
theorem C8_first_pass_errors_abort (p : List AsmRow)
    (h : (processFirstPhase p).errors ≠ []) :
    assembleProgram p = Except.error (processFirstPhase p).errors := by
  unfold assembleProgram
  simp [h]

/-- A labelled row appearing before any section header. -/
def c8row1 : AsmRow :=
  { opcode := some (.op .HLT), label := some (.labelDeclaration "oops"),
    directive := none, operand1 := none, operand2 := none, operand3 := none }

/-- A bogus directive row `.bogus #1`. -/
def c8row2 : AsmRow :=
  { opcode := none, label := none, directive := some (.directive "bogus"),
    operand1 := some (.integerOperand 1), operand2 := none, operand3 := none }

/-- C8 witness: `C8_first_pass_errors_abort` at a concrete two-row program
whose first pass accumulates `NoSegmentDeclarationFound 0` and then
`UnknownDirectiveFound "bogus"`, surfaced in that order. -/
theorem C8_first_pass_errors_abort_witness :
    assembleProgram [c8row1, c8row2] =
      Except.error (processFirstPhase [c8row1, c8row2]).errors ∧
    (processFirstPhase [c8row1, c8row2]).errors =
      [AsmError.noSegmentDeclarationFound 0, AsmError.unknownDirectiveFound "bogus"] :=
  ⟨C8_first_pass_errors_abort [c8row1, c8row2] (by decide), by decide⟩

/-- The four-row program `.data` / `test: .asciiz 'A'` / `.code` / `hlt`. -/
def c2rows : List AsmRow := [dataRow, asciizRow "test" "A", codeRow, hltRowFull]

/-- C2: evaluating `assemble` at a program with a string constant.  The
first pass builds the two-byte read-only buffer `[65, 0]` (the bytes of
`'A'` plus the zero terminator), yet the returned image is the 64-byte
header followed directly by the code bytes: `Assembler::assemble` never
merges `self.ro` into the output, so the image is not
`header ‖ read-only data ‖ code` as the claim states. -/
theorem C2_ro_dropped_from_image :
    assembleProgram c2rows = Except.ok (writePieHeader ++ [0, 0, 0, 0]) ∧
    (processFirstPhase c2rows).ro = [65, 0] ∧
    writePieHeader ++ [0, 0, 0, 0] ≠ writePieHeader ++ [65, 0] ++ [0, 0, 0, 0] := by
  decide

/-- A labelled instruction row `test: hlt`. -/
def c4LabelRow : AsmRow :=
  { opcode := some (.op .HLT), label := some (.labelDeclaration "test"),
    directive := none, operand1 := none, operand2 := none, operand3 := none }

/-- The three-row program `.data` / `.code` / `test: hlt`. -/
def c4rows : List AsmRow := [dataRow, codeRow, c4LabelRow]

/-- C4 counterexample: after an error-free first pass over `.data`, `.code`
and the labelled instruction row `test: hlt`, the single symbol `test`
has offset `none` — `process_label_declaration` inserts `Symbol::new`
(offset unset) and nothing in pass 1 ever assigns a code byte position. -/
theorem C4_instruction_label_offset_unset :
    (processFirstPhase c4rows).errors = [] ∧
    (processFirstPhase c4rows).symbols.symbols.map Symbol.name = ["test"] ∧
    (processFirstPhase c4rows).symbols.symbols.map Symbol.offset = [none] := by
  decide

/-- The symbol table is untouched by a section header. -/
theorem processSectionHeader_symbols (st : Assembler) (n : String) :
    (processSectionHeader st n).symbols = st.symbols := by
  simp only [processSectionHeader]
  split <;> rfl

/-- The symbol table is untouched by any directive other than `asciiz`. -/
theorem processDirective_symbols (st : Assembler) (r : AsmRow)
    (hr : r.getDirectiveName ≠ some "asciiz") :
    (processDirective st r).symbols = st.symbols := by
  unfold processDirective
  cases hd : r.getDirectiveName with
  | none => rfl
  | some name =>
      have hn : name ≠ "asciiz" := fun h => hr (by rw [hd, h])
      by_cases ho : r.hasOperands
      · simp [ho, hn]
      · simp [ho, processSectionHeader_symbols]

/-- Over a non-`asciiz` row, the first pass either keeps the symbol list or
appends one fresh `Symbol::new` (whose offset is unset). -/
theorem processRowFirst_symbols (st : Assembler) (r : AsmRow)
    (hr : r.getDirectiveName ≠ some "asciiz") :
    (processRowFirst st r).symbols.symbols = st.symbols.symbols ∨
    ∃ nm, (processRowFirst st r).symbols.symbols =
      st.symbols.symbols ++ [Symbol.new nm SymbolType.label] := by
  have hdir : ∀ st2 : Assembler,
      (if r.isDirective then processDirective st2 r else st2).symbols = st2.symbols := by
    intro st2
    split
    · exact processDirective_symbols st2 r hr
    · rfl
  unfold processRowFirst
  cases hl : r.isLabel
  case false =>
    left
    simp [hl, hdir]
  case true =>
    cases hc : st.currentSection.isSome
    case false =>
      left
      simp [hl, hc, hdir]
    case true =>
      unfold processLabelDeclaration
      cases hn : r.getLabelName with
      | none =>
          left
          simp [hl, hc, hn, hdir]
      | some nm =>
          cases hh : st.symbols.hasSymbol nm
          case false =>
            right
            refine ⟨nm, ?_⟩
            simp [hl, hc, hn, hh, hdir, SymbolTable.addSymbol]
          case true =>
            left
            simp [hl, hc, hn, hh, hdir]

/-- Folding the first pass over rows without an `asciiz` directive keeps
every symbol's offset unset, starting from any table for which that holds. -/
theorem firstPhase_offsets_aux (p : List AsmRow) (st : Assembler)
    (hp : ∀ r ∈ p, r.getDirectiveName ≠ some "asciiz")
    (hst : ∀ s ∈ st.symbols.symbols, s.offset = none) :
    ∀ s ∈ (p.foldl processRowFirst st).symbols.symbols, s.offset = none := by
  induction p generalizing st with
  | nil => simpa using hst
  | cons r rest ih =>
      simp only [List.foldl_cons]
      apply ih
      · intro r2 h2
        exact hp r2 (List.mem_cons_of_mem _ h2)
      · rcases processRowFirst_symbols st r (hp r (List.mem_cons_self _ _)) with h | ⟨nm, h⟩
        · intro s hs
          rw [h] at hs
          exact hst s hs
        · intro s hs
          rw [h] at hs
          rcases List.mem_append.mp hs with hs | hs
          · exact hst s hs
          · simp only [List.mem_singleton] at hs
            subst hs
            rfl

/-- C4 (amended): pass 1 populates symbol offsets only through `.asciiz`
string constants — a string-constant label receives the read-only data
position, while in a program with no `asciiz` row (in particular for every
label declared on an instruction row) every symbol's offset stays `none`;
no code byte position is ever assigned in pass 1. -/
theorem C4_offsets_only_from_asciiz :
    (∀ p : List AsmRow, (∀ r ∈ p, r.getDirectiveName ≠ some "asciiz") →
      ((processFirstPhase p).symbols.symbols.all fun s => s.offset.isNone) = true) ∧
    (∀ nm str,
      (processFirstPhase [dataRow, asciizRow nm str]).symbols.symbolValue nm = some 0) := by
  constructor
  · intro p hp
    rw [List.all_eq_true]
    intro s hs
    have h := firstPhase_offsets_aux p Assembler.new hp (by simp [Assembler.new])
    have hnone := h s hs
    simp [hnone]
  · intro nm str
    simp [processFirstPhase, processRowFirst, processDirective, processSectionHeader,
      processLabelDeclaration, handleAsciiz, Assembler.new, dataRow, asciizRow,
      sectionFromName, AsmRow.isLabel, AsmRow.isDirective, AsmRow.getDirectiveName,
      AsmRow.getLabelName, AsmRow.getStringConstant, AsmRow.hasOperands,
      SymbolTable.hasSymbol, SymbolTable.addSymbol, SymbolTable.setSymbolOffset,
      setOffsetList, SymbolTable.symbolValue, Symbol.new]

/-- C4 witness: `C4_offsets_only_from_asciiz` instantiated at the concrete
programs — the `test: hlt` program leaves every offset unset, while
`msg: .asciiz 'Hi'` after `.data` resolves `msg` to read-only offset 0. -/
theorem C4_offsets_only_from_asciiz_witness :
    ((processFirstPhase c4rows).symbols.symbols.all fun s => s.offset.isNone) = true ∧
    (processFirstPhase [dataRow, asciizRow "msg" "Hi"]).symbols.symbolValue "msg" = some 0 :=
  ⟨C4_offsets_only_from_asciiz.1 c4rows (by decide),
   C4_offsets_only_from_asciiz.2 "msg" "Hi"⟩

end Iridium
